import Mathlib

/-!
Verification of the GTFS trip-topology and service-calendar resolution engine
(`src/utils/data_processing.py`).

Tables are embedded as lists of rows, in dataframe row order.  A pandas inner
merge keeps left-frame row order, expanding each left row by its matching
right rows in right-frame order; it is embedded as a bind over the left list.
`Series.drop_duplicates` keeps the first occurrence of each value, embedded as
`dedupFirst`.  `groupby(...).rank(method='first')` ranks by ascending value,
breaking ties by row position; it is embedded positionally via `List.enum`.
Calendar dates (parsed from `YYYYMMDD` by the loader) are embedded as day
numbers of the proleptic Gregorian calendar (`dateToNat`), so that day 1 is
0001-01-01, a Monday, and `strftime("%A")` is `weekdayIndex` (0 = monday, ...,
6 = sunday).  Latitudes and longitudes are opaque payload here (no arithmetic
is ever performed on them), embedded as `Int`.
-/

namespace TFI

/-- One row of the stop_times table. -/
structure StopTimeRow where
  trip_id : String
  stop_id : String
  stop_sequence : Nat
deriving DecidableEq

/-- One row of the trips table. -/
structure TripRow where
  trip_id : String
  service_id : String
  shape_id : String
deriving DecidableEq

/-- One row of the calendar table (a service): seven weekday flags and an
inclusive validity date range, loaded as booleans and parsed dates. -/
structure ServiceRow where
  service_id : String
  monday : Bool
  tuesday : Bool
  wednesday : Bool
  thursday : Bool
  friday : Bool
  saturday : Bool
  sunday : Bool
  start_date : Nat
  end_date : Nat
deriving DecidableEq

/-- One row of the shapes table. -/
structure ShapePointRow where
  shape_id : String
  shape_pt_lat : Int
  shape_pt_lon : Int
  shape_pt_sequence : Nat
deriving DecidableEq

/-- One row of the stops table. -/
structure StopRow where
  stop_id : String
  stop_name : String
  stop_lat : Int
  stop_lon : Int
  stop_code : String
deriving DecidableEq

/-- Pandas `drop_duplicates` / dict-key collection: keep the first occurrence
of each value, in order. -/
def dedupFirst {α : Type} [DecidableEq α] (l : List α) : List α :=
  l.foldl (fun acc x => if x ∈ acc then acc else acc ++ [x]) []

/-- Gregorian leap-year test. -/
def isLeap (y : Nat) : Bool :=
  (y % 4 == 0 && y % 100 != 0) || y % 400 == 0

/-- Month lengths of a year. -/
def monthDays (leap : Bool) : List Nat :=
  [31, if leap then 29 else 28, 31, 30, 31, 30, 31, 31, 30, 31, 30, 31]

/-- Day number of a proleptic Gregorian calendar date; `dateToNat 1 1 1 = 1`. -/
def dateToNat (y m d : Nat) : Nat :=
  365 * (y - 1) + (y - 1) / 4 - (y - 1) / 100 + (y - 1) / 400
    + ((monthDays (isLeap y)).take (m - 1)).sum + d

/-- Weekday of a day number: 0 = monday, ..., 6 = sunday (0001-01-01 is a
Monday); this is `date.strftime("%A").lower()` up to naming the weekday. -/
def weekdayIndex (n : Nat) : Nat :=
  (n - 1) % 7

/-- The boolean weekday column of a service row selected by weekday index:
the column whose name is the lowercased weekday name. -/
def flagFor (s : ServiceRow) (w : Nat) : Bool :=
  if w == 0 then s.monday
  else if w == 1 then s.tuesday
  else if w == 2 then s.wednesday
  else if w == 3 then s.thursday
  else if w == 4 then s.friday
  else if w == 5 then s.saturday
  else s.sunday

/-- The row filter `query("stop_id == @start_stop or stop_id == @final_stop")`. -/
def candRows (st : List StopTimeRow) (a b : String) : List StopTimeRow :=
  st.filter (fun r => r.stop_id == a || r.stop_id == b)

/-- `groupby('trip_id')['stop_sequence'].rank(method='first')` of the row `r`
sitting at position `i` of `rows`: one plus the number of rows of the same
trip with a smaller sequence, or an equal sequence at an earlier position. -/
def rankFirst (rows : List StopTimeRow) (i : Nat) (r : StopTimeRow) : Nat :=
  1 + (rows.enum.filter (fun p =>
        p.2.trip_id == r.trip_id &&
          (decide (p.2.stop_sequence < r.stop_sequence) ||
            (p.2.stop_sequence == r.stop_sequence && decide (p.1 < i))))).length

/-- The topology filter shared by `search_trips_availables` and
`get_trips_if_exists` (lines 123-130 and 175-182): restrict stop_times to the
two candidate stops, rank within each trip, keep rows of rank 2 whose stop is
the final stop, and return the distinct trip ids. -/
def topologyTrips (st : List StopTimeRow) (a b : String) : List String :=
  dedupFirst
    (((candRows st a b).enum.filter (fun p =>
        rankFirst (candRows st a b) p.1 p.2 == 2 && p.2.stop_id == b)).map
      (fun p => p.2.trip_id))

/-- The inner merge of the trips rows whose `trip_id` is in `ids` with the
calendar rows, on `service_id` (pandas keeps left row order and matches in
right row order). -/
def calendarJoin (trips : List TripRow) (cal : List ServiceRow)
    (ids : List String) : List (TripRow × ServiceRow) :=
  (trips.filter (fun t => ids.contains t.trip_id)).flatMap
    (fun t => (cal.filter (fun s => s.service_id == t.service_id)).map
      (fun s => (t, s)))

/-- `search_trips_availables` (lines 96-145): topology filter, then the
calendar join filtered by `@date >= start_date and @date <= end_date and
<weekday> == True`, returning the distinct trip ids. -/
def search_trips_availables (df_trips : List TripRow)
    (df_stop_times : List StopTimeRow) (df_calendar : List ServiceRow)
    (start_stop final_stop : String) (date : Nat) : List String :=
  dedupFirst
    (((calendarJoin df_trips df_calendar
          (topologyTrips df_stop_times start_stop final_stop)).filter
        (fun p =>
          decide (p.2.start_date ≤ date) && decide (date ≤ p.2.end_date) &&
            flagFor p.2 (weekdayIndex date))).map
      (fun p => p.1.trip_id))

/-- `pd.date_range(start_date, end_date, freq='D')`: every day of the
inclusive range, empty when the range is inverted. -/
def serviceDays (s : ServiceRow) : List Nat :=
  (List.range (s.end_date + 1 - s.start_date)).map (fun k => s.start_date + k)

/-- `DataFrame.explode('days')` of one row: each day becomes a row, and an
empty day list becomes a single row holding a missing value (NaN). -/
def explodeDays (s : ServiceRow) : List (Option Nat) :=
  match serviceDays s with
  | [] => [none]
  | ds => ds.map some

/-- `get_trips_if_exists` (lines 149-212): topology filter with an early
empty-list return; otherwise the calendar join, exploded into one row per day
of each service's date range, filtered by the weekday flags, with the distinct
day values returned.  The weekday filter applies `strftime` to every exploded
day, which fails (AttributeError on NaN) as soon as some row holds a missing
value, i.e. when some joined service has an empty date range; this failure is
the `none` result.  The `date` argument is accepted but never read. -/
def get_trips_if_exists (df_trips : List TripRow)
    (df_stop_times : List StopTimeRow) (df_calendar : List ServiceRow)
    (start_stop final_stop : String) (date : Nat) : Option (List Nat) :=
  if topologyTrips df_stop_times start_stop final_stop = [] then
    some []
  else
    let exploded :=
      (calendarJoin df_trips df_calendar
          (topologyTrips df_stop_times start_stop final_stop)).flatMap
        (fun p => (explodeDays p.2).map (fun d => (p.2, d)))
    if exploded.any (fun q => q.2.isNone) then
      none
    else
      some (dedupFirst (exploded.filterMap (fun q =>
        match q.2 with
        | some d => if flagFor q.1 (weekdayIndex d) then some d else none
        | none => none)))

/-- The trips-to-shape-points inner merge of `get_trip_shapes`, restricted to
the requested trip ids. -/
def tripShapeJoin (df_trips : List TripRow) (df_shapes : List ShapePointRow)
    (ids : List String) : List (TripRow × ShapePointRow) :=
  (df_trips.filter (fun t => ids.contains t.trip_id)).flatMap
    (fun t => (df_shapes.filter (fun p => p.shape_id == t.shape_id)).map
      (fun p => (t, p)))

/-- The `sort_values(by=['trip_id','shape_pt_sequence'])` sort key of
`get_trip_shapes`, as a relation. -/
def shapeOrder (x y : TripRow × ShapePointRow) : Prop :=
  x.1.trip_id < y.1.trip_id ∨
    (x.1.trip_id = y.1.trip_id ∧ x.2.shape_pt_sequence ≤ y.2.shape_pt_sequence)

instance : DecidableRel shapeOrder := fun x y => by
  unfold shapeOrder
  infer_instance

/-- The merged and sorted frame `df_trip_shape` of `get_trip_shapes`. -/
def tripShapeSorted (df_trips : List TripRow) (df_shapes : List ShapePointRow)
    (ids : List String) : List (TripRow × ShapePointRow) :=
  List.insertionSort shapeOrder (tripShapeJoin df_trips df_shapes ids)

/-- `get_trip_shapes` (lines 5-57) with a trip id list given: for each trip id
of the list (a Python dict keeps one key per distinct id, in first-insertion
order), the lat/lon pairs of the sorted merged frame restricted to that trip.
-/
def get_trip_shapes (df_trips : List TripRow) (df_shapes : List ShapePointRow)
    (trip_id_list : List String) : List (String × List (Int × Int)) :=
  (dedupFirst trip_id_list).map (fun t =>
    (t, ((tripShapeSorted df_trips df_shapes trip_id_list).filter
          (fun x => x.1.trip_id == t)).map
        (fun x => (x.2.shape_pt_lat, x.2.shape_pt_lon))))

/-- One row of the table returned by `get_trip_stops`. -/
structure TripStopRow where
  trip_id : String
  stop_id : String
  stop_code : String
  stop_name : String
  stop_sequence : Nat
  stop_lat : Int
  stop_lon : Int
deriving DecidableEq

/-- `get_trip_stops` (lines 61-93): trips restricted to the requested ids,
inner-merged with stop_times on `trip_id` and then with stops on `stop_id`
(no sort), projected to the seven output columns. -/
def get_trip_stops (df_trips : List TripRow) (df_stop_times : List StopTimeRow)
    (df_stops : List StopRow) (list_trips_id : List String) :
    List TripStopRow :=
  ((df_trips.filter (fun t => list_trips_id.contains t.trip_id)).flatMap
      (fun t => (df_stop_times.filter (fun r => r.trip_id == t.trip_id)).map
        (fun r => (t, r)))).flatMap
    (fun p => (df_stops.filter (fun s => s.stop_id == p.2.stop_id)).map
      (fun s => ⟨p.2.trip_id, p.2.stop_id, s.stop_code, s.stop_name,
        p.2.stop_sequence, s.stop_lat, s.stop_lon⟩))

/-- Folding the keep-first-occurrence step preserves and collects membership. -/
theorem mem_foldl_dedup {α : Type} [DecidableEq α] (l : List α) (acc : List α)
    (x : α) :
    (x ∈ l.foldl (fun acc y => if y ∈ acc then acc else acc ++ [y]) acc) ↔
      x ∈ acc ∨ x ∈ l := by
  induction l generalizing acc with
  | nil => simp
  | cons a t ih =>
      simp only [List.foldl_cons, ih, List.mem_cons]
      by_cases h : a ∈ acc
      · simp only [if_pos h]
        constructor
        · tauto
        · rintro (hx | rfl | hx) <;> tauto
      · simp only [if_neg h, List.mem_append, List.mem_singleton]
        tauto

/-- Folding the keep-first-occurrence step preserves distinctness. -/
theorem nodup_foldl_dedup {α : Type} [DecidableEq α] (l : List α)
    (acc : List α) (h : acc.Nodup) :
    (l.foldl (fun acc y => if y ∈ acc then acc else acc ++ [y]) acc).Nodup := by
  induction l generalizing acc with
  | nil => simpa
  | cons a t ih =>
      simp only [List.foldl_cons]
      by_cases ha : a ∈ acc
      · rw [if_pos ha]
        exact ih acc h
      · rw [if_neg ha]
        refine ih (acc ++ [a]) ?_
        simp [List.nodup_append, h, ha]

/-- Membership is unchanged by dropping duplicates. -/
theorem mem_dedupFirst {α : Type} [DecidableEq α] {x : α} {l : List α} :
    x ∈ dedupFirst l ↔ x ∈ l := by
  simp [dedupFirst, mem_foldl_dedup]

/-- Dropped-duplicates lists are duplicate free. -/
theorem nodup_dedupFirst {α : Type} [DecidableEq α] (l : List α) :
    (dedupFirst l).Nodup :=
  nodup_foldl_dedup l [] (by simp)

/-- The enumerated day range of a service is exactly its inclusive interval. -/
theorem mem_serviceDays {s : ServiceRow} {d : Nat} :
    d ∈ serviceDays s ↔ s.start_date ≤ d ∧ d ≤ s.end_date := by
  simp only [serviceDays, List.mem_map, List.mem_range]
  constructor
  · rintro ⟨k, hk, rfl⟩
    omega
  · rintro ⟨h1, h2⟩
    exact ⟨d - s.start_date, by omega, by omega⟩

/-- A service has no days exactly when its date range is inverted. -/
theorem serviceDays_eq_nil {s : ServiceRow} :
    serviceDays s = [] ↔ s.end_date < s.start_date := by
  simp only [serviceDays, List.map_eq_nil_iff, List.range_eq_nil]
  omega

/-- A day survives the explode step exactly when it is in the day range. -/
theorem some_mem_explodeDays {s : ServiceRow} {d : Nat} :
    some d ∈ explodeDays s ↔ d ∈ serviceDays s := by
  unfold explodeDays
  cases h : serviceDays s with
  | nil => simp [h]
  | cons a t => simp

/-- The explode step leaves a missing value exactly for an empty day range. -/
theorem none_mem_explodeDays {s : ServiceRow} :
    (none ∈ explodeDays s) ↔ serviceDays s = [] := by
  unfold explodeDays
  cases h : serviceDays s with
  | nil => simp
  | cons a t => simp [h]

/-- Membership in the trips-calendar inner merge. -/
theorem mem_calendarJoin {trips : List TripRow} {cal : List ServiceRow}
    {ids : List String} {t : TripRow} {s : ServiceRow} :
    (t, s) ∈ calendarJoin trips cal ids ↔
      t ∈ trips ∧ t.trip_id ∈ ids ∧ s ∈ cal ∧ s.service_id = t.service_id := by
  simp only [calendarJoin, List.mem_flatMap, List.mem_filter, List.mem_map,
    List.contains, List.elem_iff, Prod.mk.injEq, beq_iff_eq]
  constructor
  · rintro ⟨t1, ⟨ht1, hid⟩, s1, ⟨hs1, hsv⟩, rfl, rfl⟩
    exact ⟨ht1, hid, hs1, hsv⟩
  · rintro ⟨ht, hid, hs, hsv⟩
    exact ⟨t, ⟨ht, hid⟩, s, ⟨hs, hsv⟩, rfl, rfl⟩

/-- An index-blind filter over an enumerated list has the length of the plain
filter, for pointwise-agreeing predicates. -/
theorem length_filter_enumFrom {α : Type} (p : Nat × α → Bool) (q : α → Bool) :
    ∀ (l : List α) (n : Nat),
      (∀ i, (hi : i < l.length) → p (n + i, l[i]) = q l[i]) →
      ((l.enumFrom n).filter p).length = (l.filter q).length := by
  intro l
  induction l with
  | nil => simp
  | cons a t ih =>
      intro n h
      have h0 : p (n, a) = q a := by simpa using h 0 (by simp)
      have ht : ∀ i, (hi : i < t.length) → p (n + 1 + i, t[i]) = q t[i] := by
        intro i hi
        have hstep := h (i + 1) (by simpa using Nat.succ_lt_succ hi)
        simpa [Nat.add_comm, Nat.add_assoc, Nat.add_left_comm] using hstep
      simp only [List.enumFrom_cons, List.filter_cons, h0]
      cases hqa : q a <;> simp [ih (n + 1) ht]

/-- The invariant of the stop_times data model: within a trip, stop_sequence
values are unique. -/
def seqDistinct (st : List StopTimeRow) : Prop :=
  st.Pairwise (fun r r' =>
    r.trip_id = r'.trip_id → r.stop_sequence ≠ r'.stop_sequence)

instance (st : List StopTimeRow) : Decidable (seqDistinct st) := by
  unfold seqDistinct
  infer_instance

/-- Under the per-trip uniqueness invariant, the positional tie break of
`rank(method='first')` never fires: the rank of a row is one plus the number
of rows of the same trip with a strictly smaller sequence. -/
theorem rankFirst_eq {cand : List StopTimeRow} (h : seqDistinct cand)
    {i : Nat} (hi : i < cand.length) :
    rankFirst cand i cand[i] =
      1 + (cand.filter (fun x => x.trip_id == cand[i].trip_id &&
            decide (x.stop_sequence < cand[i].stop_sequence))).length := by
  unfold rankFirst
  congr 1
  have hpw := List.pairwise_iff_getElem.mp h
  refine length_filter_enumFrom _ _ cand 0 ?_
  intro j hj
  simp only [Nat.zero_add]
  by_cases htr : cand[j].trip_id = cand[i].trip_id
  · by_cases hsq : cand[j].stop_sequence = cand[i].stop_sequence
    · have hji : ¬ j < i := by
        intro hlt
        exact hpw j i hj hi hlt htr hsq
      simp [htr, hsq, hji, Nat.lt_irrefl]
    · simp [htr, hsq]
  · have hfalse : (cand[j].trip_id == cand[i].trip_id) = false := by
      simpa using htr
    simp [hfalse]

/-- The candidate rows of one trip: the rows of the trip whose stop is one of
the two requested stops. -/
def tripCand (st : List StopTimeRow) (a b T : String) : List StopTimeRow :=
  (candRows st a b).filter (fun r => r.trip_id == T)

/-- Counting the smaller-sequence rows of a trip over the full candidate list
or over the trip's own candidate rows is the same. -/
theorem count_smaller_eq (st : List StopTimeRow) (a b T : String)
    (r : StopTimeRow) (hrT : r.trip_id = T) :
    ((candRows st a b).filter (fun x => x.trip_id == r.trip_id &&
        decide (x.stop_sequence < r.stop_sequence))).length =
      ((tripCand st a b T).filter
        (fun x => decide (x.stop_sequence < r.stop_sequence))).length := by
  rw [tripCand, List.filter_filter]
  subst hrT
  congr 1
  refine List.filter_congr ?_
  intro x hx
  exact Bool.and_comm _ _

/-- Membership in the topology filter, with the positional rank resolved: a
trip is returned exactly when it has a candidate row at the final stop with
exactly one candidate row of the same trip strictly earlier in sequence. -/
theorem mem_topologyTrips {st : List StopTimeRow} {a b T : String}
    (h : seqDistinct st) :
    T ∈ topologyTrips st a b ↔
      ∃ r ∈ tripCand st a b T, r.stop_id = b ∧
        ((tripCand st a b T).filter
          (fun x => decide (x.stop_sequence < r.stop_sequence))).length = 1 := by
  have hcand : seqDistinct (candRows st a b) := h.sublist (List.filter_sublist st)
  unfold topologyTrips
  rw [mem_dedupFirst]
  simp only [List.mem_map, List.mem_filter, Bool.and_eq_true, beq_iff_eq]
  constructor
  · rintro ⟨⟨i, x⟩, ⟨hmem, hrank, hstop⟩, hT⟩
    dsimp only at hmem hrank hstop hT
    rw [List.mk_mem_enum_iff_getElem?] at hmem
    have hi : i < (candRows st a b).length := by
      have := List.getElem?_eq_some_iff.mp hmem
      exact this.1
    have hx : (candRows st a b)[i] = x := by
      have := List.getElem?_eq_some_iff.mp hmem
      exact this.2
    refine ⟨x, List.mem_filter.mpr ⟨hx ▸ List.getElem_mem hi, by simp [hT]⟩,
      hstop, ?_⟩
    have hr := rankFirst_eq hcand hi
    rw [hx] at hr
    rw [hr] at hrank
    have hlen := count_smaller_eq st a b T x hT
    omega
  · rintro ⟨r, hr, hstop, hcount⟩
    have hrc : r ∈ candRows st a b := (List.mem_filter.mp hr).1
    have hrT : r.trip_id = T := by
      simpa using (List.mem_filter.mp hr).2
    obtain ⟨i, hi, hieq⟩ := List.mem_iff_getElem.mp hrc
    refine ⟨(i, r), ⟨?_, ?_, hstop⟩, hrT⟩
    · rw [List.mk_mem_enum_iff_getElem?]
      rw [List.getElem?_eq_getElem hi, hieq]
    · dsimp only
      have hr2 := rankFirst_eq hcand hi
      rw [hieq] at hr2
      have hlen := count_smaller_eq st a b T r hrT
      omega

/-- A duplicate-free list of at least two numbers has a second-smallest
element: a member with exactly one strictly smaller member. -/
theorem exists_second_min {l : List Nat} (hn : l.Nodup) (hl : 2 ≤ l.length) :
    ∃ x ∈ l, (l.filter (fun y => decide (y < x))).length = 1 := by
  obtain ⟨s, hperm, hsorted, hnodup⟩ :
      ∃ s, s.Perm l ∧ s.Sorted (fun x y => x ≤ y) ∧ s.Nodup :=
    ⟨List.insertionSort (fun x y => x ≤ y) l,
      List.perm_insertionSort _ l, List.sorted_insertionSort _ l,
      (List.perm_insertionSort _ l).nodup_iff.mpr hn⟩
  have hstrict : s.Pairwise (fun x y => x < y) :=
    (hsorted.and hnodup).imp (fun h => Nat.lt_of_le_of_ne h.1 h.2)
  have hlen2 : 2 ≤ s.length := by
    rw [hperm.length_eq]
    exact hl
  rcases s with _ | ⟨c, s1⟩
  · simp at hlen2
  rcases s1 with _ | ⟨x, u⟩
  · simp at hlen2
  rw [List.pairwise_cons] at hstrict
  obtain ⟨hc, hrest⟩ := hstrict
  rw [List.pairwise_cons] at hrest
  obtain ⟨hxu, hu⟩ := hrest
  refine ⟨x, hperm.subset (by simp), ?_⟩
  have hfil := (hperm.filter (fun y => decide (y < x))).length_eq
  rw [← hfil]
  have hcx : c < x := hc x (by simp)
  have hufil : u.filter (fun y => decide (y < x)) = [] := by
    refine List.filter_eq_nil_iff.mpr ?_
    intro z hz
    simpa using Nat.not_lt.mpr (Nat.le_of_lt (hxu z hz))
  simp [List.filter_cons, hcx, hufil]

/-- Under the per-trip uniqueness invariant, a trip and a sequence value
determine the row. -/
theorem seqDistinct_eq {st : List StopTimeRow} (h : seqDistinct st)
    {x y : StopTimeRow} (hx : x ∈ st) (hy : y ∈ st)
    (ht : x.trip_id = y.trip_id) (hs : x.stop_sequence = y.stop_sequence) :
    x = y := by
  by_contra hne
  obtain ⟨i, hi, hieq⟩ := List.mem_iff_getElem.mp hx
  obtain ⟨j, hj, hjeq⟩ := List.mem_iff_getElem.mp hy
  have hpw := List.pairwise_iff_getElem.mp h
  rcases Nat.lt_trichotomy i j with hij | hij | hij
  · have := hpw i j hi hj hij
    rw [hieq, hjeq] at this
    exact this ht hs
  · subst hij
    exact hne (hieq.symm.trans hjeq)
  · have := hpw j i hj hi hij
    rw [hieq, hjeq] at this
    exact this ht.symm hs.symm

/-- All candidate rows of one trip carry that trip id. -/
theorem tripCand_trip_id {st : List StopTimeRow} {a b T : String}
    {r : StopTimeRow} (hr : r ∈ tripCand st a b T) : r.trip_id = T := by
  simpa using (List.mem_filter.mp hr).2

/-- Candidate rows of one trip are stop_times rows at one of the two stops. -/
theorem tripCand_subset {st : List StopTimeRow} {a b T : String}
    {r : StopTimeRow} (hr : r ∈ tripCand st a b T) :
    r ∈ st ∧ (r.stop_id = a ∨ r.stop_id = b) := by
  have h1 := (List.mem_filter.mp hr).1
  have h2 := List.mem_filter.mp h1
  refine ⟨h2.1, ?_⟩
  simpa using h2.2

/-- Under the invariant, the sequences of a trip's candidate rows are all
distinct. -/
theorem tripCand_seq_nodup {st : List StopTimeRow} {a b T : String}
    (h : seqDistinct st) :
    ((tripCand st a b T).map (fun r => r.stop_sequence)).Nodup := by
  have hsub : (tripCand st a b T).Pairwise (fun r r' =>
      r.trip_id = r'.trip_id → r.stop_sequence ≠ r'.stop_sequence) :=
    (h.sublist (List.filter_sublist st)).sublist
      (List.filter_sublist (candRows st a b))
  have hpair : (tripCand st a b T).Pairwise (fun r r' =>
      r.stop_sequence ≠ r'.stop_sequence) := by
    refine List.Pairwise.imp_of_mem ?_ hsub
    intro r r' hr hr' himp
    exact himp ((tripCand_trip_id hr).trans (tripCand_trip_id hr').symm)
  exact List.pairwise_map.mpr hpair

/-- Under the invariant, a trip's candidate rows are duplicate free. -/
theorem tripCand_nodup {st : List StopTimeRow} {a b T : String}
    (h : seqDistinct st) : (tripCand st a b T).Nodup := by
  have hsub : (tripCand st a b T).Pairwise (fun r r' =>
      r.trip_id = r'.trip_id → r.stop_sequence ≠ r'.stop_sequence) :=
    (h.sublist (List.filter_sublist st)).sublist
      (List.filter_sublist (candRows st a b))
  refine List.Pairwise.imp_of_mem ?_ hsub
  intro r r' hr hr' himp heq
  exact himp (by rw [heq]) (by rw [heq])

/-- C1: for a stop_times relation satisfying the per-trip sequence-uniqueness
invariant and a pair of distinct stops, a trip T is in the topology result iff
among T's rows at the two stops, ranked by ascending stop_sequence, the row of
rank 2 (the row with exactly one strictly earlier candidate row) is at the end
stop. -/
theorem c1_topology_rank2 (st : List StopTimeRow) (a b T : String)
    (hab : a ≠ b) (h : seqDistinct st) :
    T ∈ topologyTrips st a b ↔
      ∃ r ∈ tripCand st a b T, r.stop_id = b ∧
        ((tripCand st a b T).filter
          (fun x => decide (x.stop_sequence < r.stop_sequence))).length = 1 :=
  mem_topologyTrips h

/-- C1 witness data: one trip visiting stop A then stop B. -/
def w1St : List StopTimeRow := [⟨"T1", "A", 1⟩, ⟨"T1", "B", 2⟩]

/-- C1 witness: the rank-2 characterization instantiated at a concrete
two-row stop_times table. -/
theorem c1_topology_rank2_witness :
    "T1" ∈ topologyTrips w1St "A" "B" ↔
      ∃ r ∈ tripCand w1St "A" "B" "T1", r.stop_id = "B" ∧
        ((tripCand w1St "A" "B" "T1").filter
          (fun x => decide (x.stop_sequence < r.stop_sequence))).length = 1 :=
  c1_topology_rank2 w1St "A" "B" "T1" (by decide) (by decide)

/-- C6 counterexample data: one trip visiting stop a twice. -/
def cx6St : List StopTimeRow := [⟨"T", "a", 1⟩, ⟨"T", "a", 2⟩]

/-- C6 counterexample data: the trips table backing the loop trip. -/
def cx6Trips : List TripRow := [⟨"T", "S", "SH"⟩]

/-- C6 counterexample data: an every-day service valid on days 1 to 5. -/
def cx6Cal : List ServiceRow :=
  [⟨"S", true, true, true, true, true, true, true, 1, 5⟩]

/-- C6 counterexample: with start_stop = end_stop = "a" the topology result is
not empty once some trip visits "a" twice — the second visit holds rank 2 and
is at the final stop — and neither search_trips_availables nor
get_trips_if_exists returns an empty result. -/
theorem c6_counterexample :
    topologyTrips cx6St "a" "a" = ["T"] ∧
    search_trips_availables cx6Trips cx6St cx6Cal "a" "a" 3 = ["T"] ∧
    get_trips_if_exists cx6Trips cx6St cx6Cal "a" "a" 3 =
      some [1, 2, 3, 4, 5] := by
  refine ⟨by decide, by decide, by decide⟩

/-- C6 amended: with equal start and end stops, the topology filter returns
exactly the trips having at least two stop-time rows at that stop (so it is
empty only when no trip visits the stop twice), under the per-trip
sequence-uniqueness invariant. -/
theorem c6_equal_stops_amended (st : List StopTimeRow) (a T : String)
    (h : seqDistinct st) :
    T ∈ topologyTrips st a a ↔
      2 ≤ (st.filter (fun r => r.trip_id == T && r.stop_id == a)).length := by
  have htc : tripCand st a a T =
      st.filter (fun r => r.trip_id == T && r.stop_id == a) := by
    rw [tripCand, candRows, List.filter_filter]
    exact List.filter_congr (fun r hr => by cases hsi : r.stop_id == a <;>
      simp [hsi])
  rw [mem_topologyTrips h, ← htc]
  constructor
  · rintro ⟨r, hr, hstop, hcount⟩
    have h1 : List.countP (fun x =>
        decide (x.stop_sequence < r.stop_sequence)) (tripCand st a a T) = 1 := by
      rw [List.countP_eq_length_filter]
      exact hcount
    have h2 : 0 < List.countP (fun x =>
        decide ¬(decide (x.stop_sequence < r.stop_sequence) = true))
        (tripCand st a a T) :=
      List.countP_pos_iff.mpr ⟨r, hr, by simp⟩
    have h3 := List.length_eq_countP_add_countP
      (fun x => decide (x.stop_sequence < r.stop_sequence)) (tripCand st a a T)
    omega
  · intro h2le
    have hnodup := tripCand_seq_nodup (a := a) (b := a) (T := T) h
    have hlen : 2 ≤ ((tripCand st a a T).map
        (fun r => r.stop_sequence)).length := by
      simpa using h2le
    obtain ⟨x, hx, hxcount⟩ := exists_second_min hnodup hlen
    obtain ⟨r, hrtc, hrx⟩ := List.mem_map.mp hx
    refine ⟨r, hrtc, ?_, ?_⟩
    · rcases (tripCand_subset hrtc).2 with hs | hs <;> exact hs
    · rw [← List.countP_eq_length_filter] at hxcount ⊢
      rw [List.countP_map] at hxcount
      subst hrx
      simpa [Function.comp] using hxcount

/-- C7 counterexample data: a trip visiting B, then A, then B again. -/
def cx7St : List StopTimeRow := [⟨"T", "B", 1⟩, ⟨"T", "A", 2⟩, ⟨"T", "B", 3⟩]

/-- C7 counterexample: trip T visits A (sequence 2) and later B (sequence 3)
with no occurrence of A or B strictly between, yet the topology filter for
(A, B) does not return T: the earlier visit of B at sequence 1 holds rank 1,
so rank 2 falls on the A row. -/
theorem c7_counterexample :
    (∃ ra ∈ cx7St, ∃ rb ∈ cx7St, ra.trip_id = "T" ∧ rb.trip_id = "T" ∧
      ra.stop_id = "A" ∧ rb.stop_id = "B" ∧
      ra.stop_sequence < rb.stop_sequence ∧
      ∀ r ∈ cx7St, r.trip_id = "T" → (r.stop_id = "A" ∨ r.stop_id = "B") →
        ra.stop_sequence < r.stop_sequence →
          rb.stop_sequence ≤ r.stop_sequence) ∧
    "T" ∉ topologyTrips cx7St "A" "B" := by
  constructor
  · refine ⟨⟨"T", "A", 2⟩, by decide, ⟨"T", "B", 3⟩, by decide, rfl, rfl,
      rfl, rfl, by decide, ?_⟩
    decide
  · decide

/-- C7 amended: the pair of rows at a then b with no candidate row strictly
between qualifies the trip provided additionally no candidate row of the trip
comes strictly before the a row (so the a row is the trip's first candidate
occurrence), under the per-trip sequence-uniqueness invariant. -/
theorem c7_topology_sufficiency (st : List StopTimeRow) (a b T : String)
    (h : seqDistinct st) (hab : a ≠ b) (ra rb : StopTimeRow)
    (hra : ra ∈ st) (hrb : rb ∈ st)
    (hat : ra.trip_id = T) (hbt : rb.trip_id = T)
    (has : ra.stop_id = a) (hbs : rb.stop_id = b)
    (hlt : ra.stop_sequence < rb.stop_sequence)
    (hbetween : ∀ r ∈ st, r.trip_id = T → (r.stop_id = a ∨ r.stop_id = b) →
      ra.stop_sequence < r.stop_sequence → rb.stop_sequence ≤ r.stop_sequence)
    (hfirst : ∀ r ∈ st, r.trip_id = T → (r.stop_id = a ∨ r.stop_id = b) →
      ra.stop_sequence ≤ r.stop_sequence) :
    T ∈ topologyTrips st a b := by
  rw [mem_topologyTrips h]
  have hra_tc : ra ∈ tripCand st a b T := List.mem_filter.mpr
    ⟨List.mem_filter.mpr ⟨hra, by simp [has]⟩, by simp [hat]⟩
  have hrb_tc : rb ∈ tripCand st a b T := List.mem_filter.mpr
    ⟨List.mem_filter.mpr ⟨hrb, by simp [hbs]⟩, by simp [hbt]⟩
  refine ⟨rb, hrb_tc, hbs, ?_⟩
  have hkey : ∀ x ∈ tripCand st a b T,
      ((decide (x.stop_sequence < rb.stop_sequence)) = true ↔
        (x == ra) = true) := by
    intro x hx
    constructor
    · intro hxlt
      have hxlt2 : x.stop_sequence < rb.stop_sequence := by simpa using hxlt
      obtain ⟨hxst, hxstop⟩ := tripCand_subset hx
      have hxT := tripCand_trip_id hx
      have hge := hfirst x hxst hxT hxstop
      have hseq : x.stop_sequence = ra.stop_sequence := by
        rcases Nat.lt_or_ge ra.stop_sequence x.stop_sequence with hg | hle2
        · exact absurd (hbetween x hxst hxT hxstop hg) (by omega)
        · omega
      have hxa := seqDistinct_eq h hxst hra (hxT.trans hat.symm) hseq
      simp [hxa]
    · intro hxe
      have hxa : x = ra := by simpa using hxe
      subst hxa
      simpa using hlt
  rw [← List.countP_eq_length_filter, List.countP_congr hkey,
    ← List.count_eq_countP]
  exact List.count_eq_one_of_mem (tripCand_nodup h) hra_tc

/-- C7 witness data: one trip visiting stop A then stop B. -/
def w7St : List StopTimeRow := [⟨"T", "A", 1⟩, ⟨"T", "B", 2⟩]

/-- C7 witness: the amended sufficiency applied at a concrete two-row table
places the trip in the topology result. -/
theorem c7_topology_sufficiency_witness : "T" ∈ topologyTrips w7St "A" "B" :=
  c7_topology_sufficiency w7St "A" "B" "T" (by decide) (by decide)
    ⟨"T", "A", 1⟩ ⟨"T", "B", 2⟩ (by decide) (by decide) rfl rfl rfl rfl
    (by decide) (by decide) (by decide)

/-- C6 witness: the amended equal-stops characterization instantiated at the
two-visit table. -/
theorem c6_equal_stops_amended_witness :
    "T" ∈ topologyTrips cx6St "a" "a" ↔
      2 ≤ (cx6St.filter (fun r => r.trip_id == "T" && r.stop_id == "a")).length :=
  c6_equal_stops_amended cx6St "a" "T" (by decide)

/-- C2: the trips returned by search_trips_availables are exactly the
topology-matched trips whose service covers the date (inclusive range) with
the date's weekday flag true; consequently the result is a subset of the
topology-matched trips, without duplicates. -/
theorem c2_date_filter (df_trips : List TripRow)
    (df_stop_times : List StopTimeRow) (df_calendar : List ServiceRow)
    (a b : String) (date : Nat) :
    (∀ T, T ∈ search_trips_availables df_trips df_stop_times df_calendar
        a b date ↔
      (T ∈ topologyTrips df_stop_times a b ∧ ∃ t ∈ df_trips, t.trip_id = T ∧
        ∃ s ∈ df_calendar, s.service_id = t.service_id ∧
          s.start_date ≤ date ∧ date ≤ s.end_date ∧
          flagFor s (weekdayIndex date) = true)) ∧
    (∀ T ∈ search_trips_availables df_trips df_stop_times df_calendar a b date,
      T ∈ topologyTrips df_stop_times a b) ∧
    (search_trips_availables df_trips df_stop_times df_calendar a b date).Nodup
    := by
  have hmem : ∀ T, T ∈ search_trips_availables df_trips df_stop_times
      df_calendar a b date ↔
      (T ∈ topologyTrips df_stop_times a b ∧ ∃ t ∈ df_trips, t.trip_id = T ∧
        ∃ s ∈ df_calendar, s.service_id = t.service_id ∧
          s.start_date ≤ date ∧ date ≤ s.end_date ∧
          flagFor s (weekdayIndex date) = true) := by
    intro T
    unfold search_trips_availables
    rw [mem_dedupFirst]
    simp only [List.mem_map, List.mem_filter, Bool.and_eq_true,
      decide_eq_true_eq]
    constructor
    · rintro ⟨⟨t, s⟩, ⟨hj, ⟨hsd, hed⟩, hflag⟩, hT⟩
      dsimp only at hj hsd hed hflag hT
      obtain ⟨ht, hid, hs, hsv⟩ := mem_calendarJoin.mp hj
      exact ⟨hT ▸ hid, t, ht, hT, s, hs, hsv, hsd, hed, hflag⟩
    · rintro ⟨htopo, t, ht, hid, s, hs, hsv, hsd, hed, hflag⟩
      exact ⟨(t, s), ⟨mem_calendarJoin.mpr ⟨ht, hid ▸ htopo, hs, hsv⟩,
        ⟨hsd, hed⟩, hflag⟩, hid⟩
  refine ⟨hmem, ?_, ?_⟩
  · intro T hT
    exact ((hmem T).mp hT).1
  · exact nodup_dedupFirst _

/-- C8: with an empty topology-matched trip set, the date filter and the date
expansion both give empty results, whatever the trips and calendar tables
hold. -/
theorem c8_empty_short_circuit (df_trips : List TripRow)
    (df_stop_times : List StopTimeRow) (df_calendar : List ServiceRow)
    (a b : String) (date : Nat)
    (h : topologyTrips df_stop_times a b = []) :
    search_trips_availables df_trips df_stop_times df_calendar a b date = [] ∧
    get_trips_if_exists df_trips df_stop_times df_calendar a b date = some []
    := by
  have hjoin : calendarJoin df_trips df_calendar
      (topologyTrips df_stop_times a b) = [] := by
    rw [h]
    simp [calendarJoin, List.contains]
  constructor
  · unfold search_trips_availables
    rw [hjoin]
    rfl
  · unfold get_trips_if_exists
    rw [if_pos h]

/-- C8 witness data: a nonempty trips table. -/
def w8Trips : List TripRow := [⟨"T", "S", "SH"⟩]

/-- C8 witness data: a nonempty calendar table. -/
def w8Cal : List ServiceRow :=
  [⟨"S", true, true, true, true, true, true, true, 1, 50⟩]

/-- C8 witness: with an empty stop_times table the topology set is empty, and
both functions give empty results despite nonempty trips and calendar. -/
theorem c8_empty_short_circuit_witness :
    search_trips_availables w8Trips [] w8Cal "A" "B" 5 = [] ∧
    get_trips_if_exists w8Trips [] w8Cal "A" "B" 5 = some [] :=
  c8_empty_short_circuit w8Trips [] w8Cal "A" "B" 5 (by decide)

/-- C10: the date argument of get_trips_if_exists never influences the
result; two calls differing only in the date agree. -/
theorem c10_date_noninterference (df_trips : List TripRow)
    (df_stop_times : List StopTimeRow) (df_calendar : List ServiceRow)
    (a b : String) (d1 d2 : Nat) :
    get_trips_if_exists df_trips df_stop_times df_calendar a b d1 =
      get_trips_if_exists df_trips df_stop_times df_calendar a b d2 := rfl

/-- C3 scenario data: one trip over one service. -/
def scn3Trips : List TripRow := [⟨"T1", "S1", "SH1"⟩]

/-- C3 scenario data: the trip visits stop A then stop C. -/
def scn3St : List StopTimeRow := [⟨"T1", "A", 1⟩, ⟨"T1", "C", 2⟩]

/-- C3 scenario data: a Monday-only service valid 2025-01-06 to 2025-01-20. -/
def scn3Cal : List ServiceRow :=
  [⟨"S1", true, false, false, false, false, false, false,
    dateToNat 2025 1 6, dateToNat 2025 1 20⟩]

/-- C3: when the topology set is nonempty and get_trips_if_exists returns a
list, that list holds exactly the dates of the inclusive validity range of
some service backing a topology-matched trip whose weekday flag is true; and
on the Monday-only scenario service the returned dates are exactly the three
Mondays 2025-01-06, 2025-01-13, 2025-01-20. -/
theorem c3_date_expansion (df_trips : List TripRow)
    (df_stop_times : List StopTimeRow) (df_calendar : List ServiceRow)
    (a b : String) (date : Nat) (l : List Nat)
    (h : topologyTrips df_stop_times a b ≠ [])
    (hok : get_trips_if_exists df_trips df_stop_times df_calendar a b date =
      some l) :
    (∀ d, d ∈ l ↔ ∃ t ∈ df_trips, t.trip_id ∈ topologyTrips df_stop_times a b ∧
      ∃ s ∈ df_calendar, s.service_id = t.service_id ∧
        s.start_date ≤ d ∧ d ≤ s.end_date ∧
        flagFor s (weekdayIndex d) = true) ∧
    get_trips_if_exists scn3Trips scn3St scn3Cal "A" "C" 0 =
      some [dateToNat 2025 1 6, dateToNat 2025 1 13, dateToNat 2025 1 20] := by
  refine ⟨?_, by decide⟩
  intro d
  simp only [get_trips_if_exists, if_neg h] at hok
  split at hok
  · exact absurd hok (by simp)
  · have hl : l = dedupFirst (((calendarJoin df_trips df_calendar
        (topologyTrips df_stop_times a b)).flatMap
          (fun p => (explodeDays p.2).map (fun x => (p.2, x)))).filterMap
        (fun q => match q.2 with
          | some x => if flagFor q.1 (weekdayIndex x) then some x else none
          | none => none)) := by
      exact (Option.some.injEq _ _ ▸ hok).symm
    subst hl
    rw [mem_dedupFirst]
    rw [List.mem_filterMap]
    constructor
    · rintro ⟨q, hq, hf⟩
      obtain ⟨⟨t, s⟩, hts, hod⟩ := List.mem_flatMap.mp hq
      obtain ⟨od1, hod1, heq⟩ := List.mem_map.mp hod
      subst heq
      dsimp only at hod1 hf
      obtain ⟨ht, hid, hs, hsv⟩ := mem_calendarJoin.mp hts
      rcases od1 with _ | x
      · exact absurd hf (by simp)
      · have hrange := mem_serviceDays.mp (some_mem_explodeDays.mp hod1)
        cases hfl : flagFor s (weekdayIndex x) with
        | false => simp [hfl] at hf
        | true =>
            simp only [hfl, if_true] at hf
            have hxd : x = d := by simpa using hf
            subst hxd
            exact ⟨t, ht, hid, s, hs, hsv, hrange.1, hrange.2, hfl⟩
    · rintro ⟨t, ht, hid, s, hs, hsv, hsd, hed, hfl⟩
      refine ⟨(s, some d), ?_, ?_⟩
      · refine List.mem_flatMap.mpr ⟨(t, s),
          mem_calendarJoin.mpr ⟨ht, hid, hs, hsv⟩, ?_⟩
        exact List.mem_map.mpr ⟨some d,
          some_mem_explodeDays.mpr (mem_serviceDays.mpr ⟨hsd, hed⟩), rfl⟩
      · simp [hfl]

/-- C3 witness: the general characterization applied to the scenario tables
at the middle Monday. -/
theorem c3_date_expansion_witness :
    dateToNat 2025 1 13 ∈
        [dateToNat 2025 1 6, dateToNat 2025 1 13, dateToNat 2025 1 20] ↔
      ∃ t ∈ scn3Trips, t.trip_id ∈ topologyTrips scn3St "A" "C" ∧
        ∃ s ∈ scn3Cal, s.service_id = t.service_id ∧
          s.start_date ≤ dateToNat 2025 1 13 ∧
          dateToNat 2025 1 13 ≤ s.end_date ∧
          flagFor s (weekdayIndex (dateToNat 2025 1 13)) = true :=
  (c3_date_expansion scn3Trips scn3St scn3Cal "A" "C" 0
    [dateToNat 2025 1 6, dateToNat 2025 1 13, dateToNat 2025 1 20]
    (by decide) (by decide)).1 (dateToNat 2025 1 13)

/-- C9 counterexample data: one trip over one service. -/
def cx9Trips : List TripRow := [⟨"T1", "S1", "SH1"⟩]

/-- C9 counterexample data: the trip visits stop A then stop C. -/
def cx9St : List StopTimeRow := [⟨"T1", "A", 1⟩, ⟨"T1", "C", 2⟩]

/-- C9 counterexample data: a service whose date range is inverted. -/
def cx9Cal : List ServiceRow :=
  [⟨"S1", true, true, true, true, true, true, true, 10, 5⟩]

/-- C9 counterexample: with a matched service whose start_date exceeds its
end_date, get_trips_if_exists does not return a (empty or other) date list at
all: the exploded empty range leaves a missing value on which the weekday
filter step fails, so the call errors out. -/
theorem c9_counterexample :
    (∃ s ∈ cx9Cal, s.end_date < s.start_date) ∧
    get_trips_if_exists cx9Trips cx9St cx9Cal "A" "C" 0 = none := by
  constructor <;> decide

/-- C9 amended: a service with an inverted date range has zero enumerated
days, and when such a service is joined to a topology-matched trip the date
expansion of get_trips_if_exists fails (the missing value produced by
exploding the empty range breaks the weekday filter) instead of contributing
zero dates. -/
theorem c9_inverted_range (df_trips : List TripRow)
    (df_stop_times : List StopTimeRow) (df_calendar : List ServiceRow)
    (a b : String) (date : Nat) (t : TripRow) (s : ServiceRow)
    (hinv : s.end_date < s.start_date)
    (hmem : (t, s) ∈ calendarJoin df_trips df_calendar
      (topologyTrips df_stop_times a b)) :
    serviceDays s = [] ∧
    get_trips_if_exists df_trips df_stop_times df_calendar a b date = none
    := by
  have hnil : serviceDays s = [] := serviceDays_eq_nil.mpr hinv
  refine ⟨hnil, ?_⟩
  have htopo : topologyTrips df_stop_times a b ≠ [] := by
    intro h0
    rw [h0] at hmem
    have hid := (mem_calendarJoin.mp hmem).2.1
    simp at hid
  have hany : ((calendarJoin df_trips df_calendar
      (topologyTrips df_stop_times a b)).flatMap
        (fun p => (explodeDays p.2).map (fun x => (p.2, x)))).any
      (fun q => q.2.isNone) = true := by
    refine List.any_eq_true.mpr ⟨(s, none), ?_, rfl⟩
    refine List.mem_flatMap.mpr ⟨(t, s), hmem, ?_⟩
    exact List.mem_map.mpr ⟨none, none_mem_explodeDays.mpr hnil, rfl⟩
  simp only [get_trips_if_exists, if_neg htopo]
  rw [if_pos hany]

/-- C9 witness: the amended statement applied to the inverted-range tables. -/
theorem c9_inverted_range_witness :
    serviceDays ⟨"S1", true, true, true, true, true, true, true, 10, 5⟩ = [] ∧
    get_trips_if_exists cx9Trips cx9St cx9Cal "A" "C" 0 = none :=
  c9_inverted_range cx9Trips cx9St cx9Cal "A" "C" 0 ⟨"T1", "S1", "SH1"⟩
    ⟨"S1", true, true, true, true, true, true, true, 10, 5⟩
    (by decide) (by decide)

instance : IsTotal (TripRow × ShapePointRow) shapeOrder := ⟨by
  intro x y
  unfold shapeOrder
  rcases lt_trichotomy x.1.trip_id y.1.trip_id with h | h | h
  · exact Or.inl (Or.inl h)
  · rcases Nat.le_total x.2.shape_pt_sequence y.2.shape_pt_sequence with
      h2 | h2
    · exact Or.inl (Or.inr ⟨h, h2⟩)
    · exact Or.inr (Or.inr ⟨h.symm, h2⟩)
  · exact Or.inr (Or.inl h)⟩

instance : IsTrans (TripRow × ShapePointRow) shapeOrder := ⟨by
  intro x y z hxy hyz
  unfold shapeOrder at hxy hyz ⊢
  rcases hxy with h1 | ⟨h1, h2⟩
  · rcases hyz with h3 | ⟨h3, h4⟩
    · exact Or.inl (h1.trans h3)
    · exact Or.inl (lt_of_lt_of_eq h1 h3)
  · rcases hyz with h3 | ⟨h3, h4⟩
    · exact Or.inl (lt_of_eq_of_lt h1 h3)
    · exact Or.inr ⟨h1.trans h3, h2.trans h4⟩⟩

/-- The merged-and-sorted frame of `get_trip_shapes` is sorted by the pandas
sort key. -/
theorem tripShapeSorted_sorted (df_trips : List TripRow)
    (df_shapes : List ShapePointRow) (ids : List String) :
    (tripShapeSorted df_trips df_shapes ids).Sorted shapeOrder :=
  List.sorted_insertionSort shapeOrder _

/-- Restricted to one trip, the point sequences of the sorted frame ascend. -/
theorem tripShapeRows_seq_sorted (df_trips : List TripRow)
    (df_shapes : List ShapePointRow) (ids : List String) (t : String) :
    (((tripShapeSorted df_trips df_shapes ids).filter
        (fun x => x.1.trip_id == t)).map
      (fun x => x.2.shape_pt_sequence)).Sorted (fun m n => m ≤ n) := by
  have hs : ((tripShapeSorted df_trips df_shapes ids).filter
      (fun x => x.1.trip_id == t)).Pairwise shapeOrder :=
    (tripShapeSorted_sorted df_trips df_shapes ids).sublist
      (List.filter_sublist _)
  have himp : ((tripShapeSorted df_trips df_shapes ids).filter
      (fun x => x.1.trip_id == t)).Pairwise
        (fun x y => x.2.shape_pt_sequence ≤ y.2.shape_pt_sequence) := by
    refine List.Pairwise.imp_of_mem ?_ hs
    intro x y hx hy hxy
    have hxt : x.1.trip_id = t := by simpa using (List.mem_filter.mp hx).2
    have hyt : y.1.trip_id = t := by simpa using (List.mem_filter.mp hy).2
    rcases hxy with h1 | ⟨h1, h2⟩
    · exfalso
      rw [hxt, hyt] at h1
      exact lt_irrefl t h1
    · exact h2
  exact List.pairwise_map.mpr himp

/-- C4: the mapping built by get_trip_shapes is key-complete over the input
trip ids — its key list is exactly the deduplicated input, every input id has
an entry (possibly with an empty coordinate list), no other key appears — and
each trip's value lists the coordinates of the sorted merged frame restricted
to that trip, whose point sequences ascend. -/
theorem c4_trip_shapes (df_trips : List TripRow)
    (df_shapes : List ShapePointRow) (ids : List String) :
    ((get_trip_shapes df_trips df_shapes ids).map Prod.fst = dedupFirst ids) ∧
    (∀ T, (∃ v, (T, v) ∈ get_trip_shapes df_trips df_shapes ids) ↔
      T ∈ ids) ∧
    (∀ T, T ∈ ids →
      (T, ((tripShapeSorted df_trips df_shapes ids).filter
            (fun x => x.1.trip_id == T)).map
          (fun x => (x.2.shape_pt_lat, x.2.shape_pt_lon))) ∈
        get_trip_shapes df_trips df_shapes ids) ∧
    (∀ T, (((tripShapeSorted df_trips df_shapes ids).filter
          (fun x => x.1.trip_id == T)).map
        (fun x => x.2.shape_pt_sequence)).Sorted (fun m n => m ≤ n)) := by
  refine ⟨?_, ?_, ?_, ?_⟩
  · unfold get_trip_shapes
    rw [List.map_map]
    have hfun : (Prod.fst ∘ fun t : String =>
        (t, ((tripShapeSorted df_trips df_shapes ids).filter
            (fun x => x.1.trip_id == t)).map
          (fun x => (x.2.shape_pt_lat, x.2.shape_pt_lon)))) =
        fun t : String => t := rfl
    rw [hfun]
    simp
  · intro T
    constructor
    · rintro ⟨v, hv⟩
      unfold get_trip_shapes at hv
      obtain ⟨t0, ht0, heq⟩ := List.mem_map.mp hv
      have ht0T : t0 = T := congrArg Prod.fst heq
      rw [ht0T] at ht0
      exact mem_dedupFirst.mp ht0
    · intro hT
      exact ⟨_, List.mem_map.mpr ⟨T, mem_dedupFirst.mpr hT, rfl⟩⟩
  · intro T hT
    exact List.mem_map.mpr ⟨T, mem_dedupFirst.mpr hT, rfl⟩
  · intro T
    exact tripShapeRows_seq_sorted df_trips df_shapes ids T

/-- C4 witness data: one trip whose shape has two points given out of order. -/
def w4Trips : List TripRow := [⟨"T", "S", "SH"⟩]

/-- C4 witness data: the shape points, out of sequence order. -/
def w4Shapes : List ShapePointRow := [⟨"SH", 5, 6, 2⟩, ⟨"SH", 1, 2, 1⟩]

/-- C4 witness: the key-completeness entry for a requested trip id, at
concrete tables also requesting an id with no trips row. -/
theorem c4_trip_shapes_witness :
    ("T", ((tripShapeSorted w4Trips w4Shapes ["T", "U"]).filter
          (fun x => x.1.trip_id == "T")).map
        (fun x => (x.2.shape_pt_lat, x.2.shape_pt_lon))) ∈
      get_trip_shapes w4Trips w4Shapes ["T", "U"] :=
  (c4_trip_shapes w4Trips w4Shapes ["T", "U"]).2.2.1 "T" (by decide)

/-- C5 failing-input data: one trip. -/
def cx5Trips : List TripRow := [⟨"T", "S", "SH"⟩]

/-- C5 failing-input data: the trip's stop_times rows out of sequence order. -/
def cx5St : List StopTimeRow := [⟨"T", "B", 2⟩, ⟨"T", "A", 1⟩]

/-- C5 failing-input data: the stops table. -/
def cx5Stops : List StopRow :=
  [⟨"A", "Astop", 0, 0, "ac"⟩, ⟨"B", "Bstop", 0, 0, "bc"⟩]

/-- C5: get_trip_stops performs no sort — it keeps the stop_times row order
within each trip — so on stop_times rows stored out of sequence order the
single-trip output has sequences [2, 1], which is not ascending, contradicting
the documented per-trip ordering guarantee. -/
theorem c5_unsorted_output :
    ((get_trip_stops cx5Trips cx5St cx5Stops ["T"]).filter
        (fun r => r.trip_id == "T")).map (fun r => r.stop_sequence) = [2, 1] ∧
    ¬ ((((get_trip_stops cx5Trips cx5St cx5Stops ["T"]).filter
        (fun r => r.trip_id == "T")).map (fun r => r.stop_sequence)).Sorted
      (fun m n => m ≤ n)) := by
  have h21 : ((get_trip_stops cx5Trips cx5St cx5Stops ["T"]).filter
      (fun r => r.trip_id == "T")).map (fun r => r.stop_sequence) = [2, 1] := by
    decide
  refine ⟨h21, ?_⟩
  rw [h21]
  intro hsort
  exact absurd (List.rel_of_sorted_cons hsort 1 (by simp)) (by omega)

end TFI
